import Mathlib

/-!
Shallow embedding of the time-tracker client
(`src/app/time-tracker/time-tracker-client.tsx` and the draft variant
`src/unnamed/part_001`), together with proofs about the category
aggregator, the pie layout, the hit tester, the timer state machine and
the storage error paths.
-/

namespace TimeTracker

/-- The fixed 12-entry color palette (`colors` in the client component). -/
def colors : List String :=
  ["#667eea", "#764ba2", "#f093fb", "#4facfe", "#43e97b", "#fa709a",
   "#fee140", "#30cfd0", "#a8edea", "#fed6e3", "#c471f5", "#12c2e9"]

/-- A row of the `time_entries` table as the client receives it
(the `TimeEntry` type of the component); `seconds` is an integer column. -/
structure TimeEntry where
  id : ℤ
  category : String
  seconds : ℤ
  user_id : String
  created_at : String
  color : String
deriving DecidableEq

/-- One aggregated category (the `AggregatedEntry` type of the component). -/
structure AggregatedEntry where
  name : String
  seconds : ℤ
  color : String
deriving DecidableEq

/-- Character-wise lower-casing standing for the `toLowerCase()` call of the
source (ASCII letters; the full Unicode tables of the JavaScript runtime are
out of scope).  Defined on the character list so that it reduces. -/
def lowerStr (s : String) : String := ⟨s.data.map Char.toLower⟩

/-- Whitespace trimming standing for the `trim()` calls of the source,
defined on the character list so that it reduces. -/
def trimStr (s : String) : String :=
  ⟨((s.data.dropWhile (·.isWhitespace)).reverse.dropWhile (·.isWhitespace)).reverse⟩

/-- Insertion-ordered association list standing for the JavaScript `Map`:
`Map.set` replaces the value in place when the key is present (keeping its
iteration position) and appends a fresh binding at the end otherwise. -/
def mapSet (m : List (String × ℤ)) (k : String) (v : ℤ) : List (String × ℤ) :=
  match m with
  | [] => [(k, v)]
  | (k', v') :: rest =>
      if k' = k then (k, v) :: rest else (k', v') :: mapSet rest k v

/-- Lookup in the association list, the `Map.get` of the source. -/
def mapGet (m : List (String × ℤ)) (k : String) : Option ℤ :=
  match m with
  | [] => none
  | (k', v') :: rest => if k' = k then some v' else mapGet rest k

/-- The tallying loop of `aggregateEntries` (`dbEntries.forEach`): lower-case
each entry's category and add its seconds to that key's running total,
creating the key with zero when absent (`aggregated.get(...) || 0`). -/
def tally (m : List (String × ℤ)) : List TimeEntry → List (String × ℤ)
  | [] => m
  | entry :: rest =>
      let categoryLower := (lowerStr entry.category)
      let current := (mapGet m categoryLower).getD 0
      tally (mapSet m categoryLower (current + entry.seconds)) rest

/-- The emission loop of `aggregateEntries` (`aggregated.forEach` with the
running `colorIndex`): one record per key in map iteration order, colored by
the emission index modulo the palette size.  The index is always in range,
so the `getD` default is never taken. -/
def emit (i : ℕ) : List (String × ℤ) → List AggregatedEntry
  | [] => []
  | (name, seconds) :: rest =>
      { name := name, seconds := seconds,
        color := colors.getD (i % colors.length) "" } :: emit (i + 1) rest

/-- The function `aggregateEntries` of the client component. -/
def aggregateEntries (dbEntries : List TimeEntry) : List AggregatedEntry :=
  emit 0 (tally [] dbEntries)

/-- Sum of the seconds of the input entries carrying a given lowercased
category name; the per-bucket total the spec attributes to each record. -/
def keyTotal (l : List TimeEntry) (k : String) : ℤ :=
  ((l.filter fun e => (lowerStr e.category) = k).map (·.seconds)).sum

/-- Modelled from the spec: one step of collecting lowercased categories "by
first appearance" — keep the accumulator when the key was already seen,
append it otherwise. -/
def seenStep (acc : List String) (e : TimeEntry) : List String :=
  if (lowerStr e.category) ∈ acc then acc else acc ++ [(lowerStr e.category)]

/-- Modelled from the spec: the output order "follows first appearance of
each lowercased category in the input" (spec section 4.1); this is the
spec-side description of the key order, to be compared with the order the
code produces. -/
def firstSeenLower (l : List TimeEntry) : List String :=
  l.foldl seenStep []

/-- The call `String(n).padStart(2, "0")` of `formatTime`. -/
def pad2 (n : ℤ) : String :=
  let s := toString n
  if s.length ≥ 2 then s else String.mk (List.replicate (2 - s.length) '0') ++ s

/-- The function `formatTime` of the client component; `Math.floor` of an
integer quotient is `Int.fdiv`, and the JavaScript `%` on integers is the
truncated remainder `Int.tmod`. -/
def formatTime (seconds : ℤ) : String :=
  let hours := Int.fdiv seconds 3600
  let minutes := Int.fdiv (Int.tmod seconds 3600) 60
  let secs := Int.tmod seconds 60
  pad2 hours ++ ":" ++ pad2 minutes ++ ":" ++ pad2 secs

/-- An active `setInterval` poll: the captured start timestamp and the period
in milliseconds passed to `setInterval`. -/
structure Poll where
  anchor : ℤ
  periodMs : ℤ
deriving DecidableEq

/-- The component's local UI state: the aggregated list, the raw entry list,
the input text, the running flag, the displayed elapsed seconds, the recorded
start timestamp and the interval handle.  The slice list is recomputed from
`entries` by the render effect and is not touched by the timer handlers. -/
structure ClientState where
  entries : List AggregatedEntry
  allEntries : List TimeEntry
  category : String
  isRunning : Bool
  elapsedSeconds : ℤ
  startTime : Option ℤ
  poll : Option Poll
deriving DecidableEq

/-- Observable side effects of the handlers: blocking alerts, console logs
and the storage calls issued to the backend. -/
inductive Effect where
  | alertMsg (msg : String)
  | consoleError (msg : String)
  | insertRow (category : String) (seconds : ℤ) (color : String)
  | selectRows
  | deleteRow (id : ℤ)
deriving DecidableEq

/-- The handler `startTimer`: an empty trimmed category aborts with an alert
and no state change; otherwise it records the start timestamp, resets the
elapsed display, sets the running flag and starts the one-second poll. -/
def startTimer (now : ℤ) (st : ClientState) : ClientState × List Effect :=
  if (trimStr st.category) = "" then
    (st, [Effect.alertMsg "Please enter a task name!"])
  else
    ({ st with startTime := some now, elapsedSeconds := 0, isRunning := true,
               poll := some { anchor := now, periodMs := 1000 } }, [])

/-- One firing of the interval callback: recompute
`elapsed = Math.floor((currentTime - now) / 1000)` from the captured start. -/
def intervalTick (currentTime : ℤ) (st : ClientState) : ClientState :=
  match st.poll with
  | none => st
  | some p => { st with elapsedSeconds := Int.fdiv (currentTime - p.anchor) 1000 }

/-- The handler `stopTimer`.  The poll is cancelled and the running flag is
cleared before the insert is attempted; `insertError` tells whether the
insert failed, `fetched` is the `data` of the follow-up select (`none`
models a null result) and `entryColor` stands for the randomly chosen
display color. -/
def stopTimer (insertError : Bool) (fetched : Option (List TimeEntry))
    (entryColor : String) (st : ClientState) : ClientState × List Effect :=
  let st1 : ClientState := { st with poll := none, isRunning := false }
  let insertFx := Effect.insertRow (trimStr st.category) st.elapsedSeconds entryColor
  if insertError then
    (st1, [insertFx, Effect.consoleError "Error saving time entry:",
           Effect.alertMsg "Failed to save time entry"])
  else
    let st2 : ClientState :=
      match fetched with
      | some updatedEntries =>
          { st1 with allEntries := updatedEntries,
                     entries := aggregateEntries updatedEntries }
      | none => st1
    ({ st2 with category := "", elapsedSeconds := 0, startTime := none },
     [insertFx, Effect.selectRows])

/-- The handler `deleteEntry`: the delete is issued first; on failure the
handler logs, alerts and returns before any state change. -/
def deleteEntry (deleteError : Bool) (fetched : Option (List TimeEntry))
    (id : ℤ) (st : ClientState) : ClientState × List Effect :=
  if deleteError then
    (st, [Effect.deleteRow id, Effect.consoleError "Error deleting time entry:",
          Effect.alertMsg "Failed to delete time entry"])
  else
    let st2 : ClientState :=
      match fetched with
      | some updatedEntries =>
          { st with allEntries := updatedEntries,
                    entries := aggregateEntries updatedEntries }
      | none => st
    (st2, [Effect.deleteRow id, Effect.selectRows])

/-- A pie slice (the `Slice` type of the component).  The `percentage` field
keeps the numeric value `seconds / total * 100`; its one-decimal string
rendering via `toFixed(1)` is display formatting only. -/
structure Slice where
  startAngle : ℝ
  endAngle : ℝ
  name : String
  seconds : ℤ
  percentage : ℝ

/-- The accumulator `total = entries.reduce((sum, entry) => sum + entry.seconds, 0)`
computed by `renderPieChart`. -/
def totalSeconds (entries : List AggregatedEntry) : ℤ :=
  entries.foldl (fun sum entry => sum + entry.seconds) 0

/-- The slice-building loop of `renderPieChart` (`entries.forEach` with the
running `currentAngle`): each entry yields a slice of angular width
`(seconds / total) * 2π` starting where the previous one ended. -/
noncomputable def buildSlices (total : ℝ) (currentAngle : ℝ) :
    List AggregatedEntry → List Slice
  | [] => []
  | entry :: rest =>
      let sliceAngle := ((entry.seconds : ℝ) / total) * (2 * Real.pi)
      { startAngle := currentAngle, endAngle := currentAngle + sliceAngle,
        name := entry.name, seconds := entry.seconds,
        percentage := ((entry.seconds : ℝ) / total) * 100 } ::
        buildSlices total (currentAngle + sliceAngle) rest

/-- The slice-producing behaviour of `renderPieChart`: `none` models the
early-returning "No data to display" placeholder path, on which `setSlices`
is not called; otherwise the list passed to `setSlices`.  The guard tests
only emptiness of `entries`, not the total. -/
noncomputable def renderPieChart (entries : List AggregatedEntry) :
    Option (List Slice) :=
  if entries.length = 0 then none
  else some (buildSlices ((totalSeconds entries : ℤ) : ℝ) (-(Real.pi / 2)) entries)

/-- JavaScript `Math.atan2` on finite arguments, valued in `(-π, π]`. -/
noncomputable def atan2 (y x : ℝ) : ℝ :=
  if 0 < x then Real.arctan (y / x)
  else if x < 0 then
    (if 0 ≤ y then Real.arctan (y / x) + Real.pi else Real.arctan (y / x) - Real.pi)
  else
    (if 0 < y then Real.pi / 2 else if y < 0 then -(Real.pi / 2) else 0)

/-- The pie radius `Math.min(centerX, centerY) - 20` with
`centerX = canvas.width / 2` and `centerY = canvas.height / 2`. -/
noncomputable def pieRadius (canvasW canvasH : ℝ) : ℝ :=
  min (canvasW / 2) (canvasH / 2) - 20

/-- The pointer's distance from the canvas center as `getSliceAtPosition`
computes it from client coordinates and the bounding rectangle. -/
noncomputable def hitDistance (canvasW canvasH rectLeft rectTop x y : ℝ) : ℝ :=
  let mouseX := x - rectLeft
  let mouseY := y - rectTop
  let dx := mouseX - canvasW / 2
  let dy := mouseY - canvasH / 2
  Real.sqrt (dx * dx + dy * dy)

/-- The pointer angle of `getSliceAtPosition`: `Math.atan2` rotated by `+π/2`
and, when negative, shifted by `2π`. -/
noncomputable def hitAngle (canvasW canvasH rectLeft rectTop x y : ℝ) : ℝ :=
  let dx := (x - rectLeft) - canvasW / 2
  let dy := (y - rectTop) - canvasH / 2
  let a := atan2 dy dx + Real.pi / 2
  if a < 0 then a + 2 * Real.pi else a

/-- The per-slice angle fix-up of the scan loop: add `2π` when negative. -/
noncomputable def normAngle (θ : ℝ) : ℝ :=
  if θ < 0 then θ + 2 * Real.pi else θ

/-- The per-slice test of the scan loop in the main client: after the
per-slice normalization, the wrap branch (`end < start`) accepts
`angle >= start || angle <= end`, the plain branch accepts
`angle >= start && angle <= end`. -/
noncomputable def sliceMatches (angle : ℝ) (slice : Slice) : Bool :=
  let start := normAngle slice.startAngle
  let endN := normAngle slice.endAngle
  if endN < start then decide (start ≤ angle) || decide (angle ≤ endN)
  else decide (start ≤ angle) && decide (angle ≤ endN)

/-- The per-slice test of the draft variant `src/unnamed/part_001`, whose wrap
branch reads `angle >= start ?? angle <= end`: the left operand of `??` is a
boolean and never nullish, so the test reduces to `angle >= start` and the
`angle <= end` disjunct is dead. -/
noncomputable def sliceMatchesAlt (angle : ℝ) (slice : Slice) : Bool :=
  let start := normAngle slice.startAngle
  let endN := normAngle slice.endAngle
  if endN < start then decide (start ≤ angle)
  else decide (start ≤ angle) && decide (angle ≤ endN)

/-- The function `getSliceAtPosition`: `none` for an empty slice list (or a
missing canvas, not modelled) and for pointers strictly farther from the
center than the radius; otherwise the first slice passing the angular test. -/
noncomputable def getSliceAtPosition (canvasW canvasH rectLeft rectTop : ℝ)
    (slices : List Slice) (x y : ℝ) : Option Slice :=
  if slices.length = 0 then none
  else if pieRadius canvasW canvasH < hitDistance canvasW canvasH rectLeft rectTop x y
    then none
  else slices.find? (sliceMatches (hitAngle canvasW canvasH rectLeft rectTop x y))

/-- Sum of the angular widths the layout assigns to a list of entries. -/
noncomputable def widthSum (total : ℝ) (l : List AggregatedEntry) : ℝ :=
  (l.map fun entry => ((entry.seconds : ℝ) / total) * (2 * Real.pi)).sum

/-- The two-entry input of the spec's aggregation scenario: same category up
to letter case. -/
def sampleEntries : List TimeEntry :=
  [{ id := 1, category := "Code", seconds := 3600, user_id := "u",
     created_at := "t1", color := "#4facfe" },
   { id := 2, category := "code", seconds := 1800, user_id := "u",
     created_at := "t2", color := "#43e97b" }]

/-- An idle client state with empty input text. -/
def idleState : ClientState :=
  { entries := [], allEntries := [], category := "", isRunning := false,
    elapsedSeconds := 0, startTime := none, poll := none }

/-- An idle client state whose input text is a non-empty task name. -/
def readyState : ClientState :=
  { idleState with category := "work" }

/-- A client state captured mid-run: the timer is running with an active
poll, accumulated elapsed seconds and one stored entry. -/
def runningState : ClientState :=
  { entries := [{ name := "work", seconds := 100, color := "#667eea" }],
    allEntries := [{ id := 1, category := "work", seconds := 100, user_id := "u",
                     created_at := "t", color := "#667eea" }],
    category := "work", isRunning := true, elapsedSeconds := 7,
    startTime := some 1000, poll := some { anchor := 1000, periodMs := 1000 } }

/-- A two-category aggregation with equal positive seconds, used as the
concrete layout input of the witnesses. -/
def entriesTwo : List AggregatedEntry :=
  [{ name := "a", seconds := 1, color := "#667eea" },
   { name := "b", seconds := 1, color := "#764ba2" }]

/-- The non-empty zero-total aggregation: a single category whose tracked
seconds are zero. -/
def zeroEntries : List AggregatedEntry :=
  [{ name := "idle", seconds := 0, color := "#667eea" }]

/-- A one-category aggregation holding all the seconds: its single slice
spans the full turn. -/
def entriesOne : List AggregatedEntry :=
  [{ name := "work", seconds := 3600, color := "#667eea" }]

/-- A slice whose per-slice normalized angles wrap (normalized end below
normalized start): its span crosses the angle-zero boundary. -/
noncomputable def wrapSlice : Slice :=
  { startAngle := -(1 / 2), endAngle := 1 / 2, name := "w", seconds := 0,
    percentage := 0 }

lemma mapGet_nil (k : String) : mapGet [] k = none := rfl

lemma mapGet_cons (k0 : String) (v0 : ℤ) (rest : List (String × ℤ)) (k : String) :
    mapGet ((k0, v0) :: rest) k = if k0 = k then some v0 else mapGet rest k := rfl

lemma mapSet_nil (k : String) (v : ℤ) : mapSet [] k v = [(k, v)] := rfl

lemma mapSet_cons (k0 : String) (v0 : ℤ) (rest : List (String × ℤ))
    (k : String) (v : ℤ) :
    mapSet ((k0, v0) :: rest) k v =
      if k0 = k then (k, v) :: rest else (k0, v0) :: mapSet rest k v := rfl

lemma mapGet_mapSet_self (m : List (String × ℤ)) (k : String) (v : ℤ) :
    mapGet (mapSet m k v) k = some v := by
  induction m with
  | nil => simp [mapSet_nil, mapGet_cons]
  | cons p rest ih =>
    obtain ⟨k0, v0⟩ := p
    by_cases h : k0 = k
    · simp [mapSet_cons, mapGet_cons, h]
    · simp [mapSet_cons, mapGet_cons, h, ih]

lemma mapGet_mapSet_ne (m : List (String × ℤ)) (k k' : String) (v : ℤ)
    (h : k' ≠ k) : mapGet (mapSet m k v) k' = mapGet m k' := by
  have h' : ¬ k = k' := fun hk => h hk.symm
  induction m with
  | nil => simp [mapSet_nil, mapGet_cons, mapGet_nil, h']
  | cons p rest ih =>
    obtain ⟨k0, v0⟩ := p
    by_cases h0 : k0 = k
    · subst h0
      simp [mapSet_cons, mapGet_cons, h']
    · simp [mapSet_cons, mapGet_cons, h0, ih]

lemma mapSet_sum_of_get_some (m : List (String × ℤ)) (k : String) (v w : ℤ)
    (h : mapGet m k = some w) :
    ((mapSet m k v).map Prod.snd).sum = (m.map Prod.snd).sum - w + v := by
  induction m with
  | nil => simp [mapGet_nil] at h
  | cons p rest ih =>
    obtain ⟨k0, v0⟩ := p
    by_cases h0 : k0 = k
    · subst h0
      simp [mapGet_cons] at h
      subst h
      simp [mapSet_cons]
      ring
    · rw [mapGet_cons, if_neg h0] at h
      simp [mapSet_cons, h0, ih h]
      ring

lemma mapSet_sum_of_get_none (m : List (String × ℤ)) (k : String) (v : ℤ)
    (h : mapGet m k = none) :
    ((mapSet m k v).map Prod.snd).sum = (m.map Prod.snd).sum + v := by
  induction m with
  | nil => simp [mapSet_nil]
  | cons p rest ih =>
    obtain ⟨k0, v0⟩ := p
    by_cases h0 : k0 = k
    · rw [mapGet_cons, if_pos h0] at h
      exact absurd h (by simp)
    · rw [mapGet_cons, if_neg h0] at h
      simp [mapSet_cons, h0, ih h]
      ring

lemma mapSet_keys (m : List (String × ℤ)) (k : String) (v : ℤ) :
    (mapSet m k v).map Prod.fst =
      if k ∈ m.map Prod.fst then m.map Prod.fst else m.map Prod.fst ++ [k] := by
  induction m with
  | nil => simp [mapSet_nil]
  | cons p rest ih =>
    obtain ⟨k0, v0⟩ := p
    by_cases h0 : k0 = k
    · simp [mapSet_cons, h0]
    · have hne : ¬ k = k0 := fun hk => h0 hk.symm
      by_cases hk : k ∈ rest.map Prod.fst
      · simp [mapSet_cons, h0, ih, hk, hne]
      · simp [mapSet_cons, h0, ih, hk, hne]

lemma keyTotal_nil (k : String) : keyTotal [] k = 0 := rfl

lemma keyTotal_cons (e : TimeEntry) (rest : List TimeEntry) (k : String) :
    keyTotal (e :: rest) k =
      (if (lowerStr e.category) = k then e.seconds else 0) + keyTotal rest k := by
  by_cases h : (lowerStr e.category) = k
  · simp [keyTotal, List.filter_cons, h]
  · simp [keyTotal, List.filter_cons, h]

lemma tally_nil (m : List (String × ℤ)) : tally m [] = m := rfl

lemma tally_cons (m : List (String × ℤ)) (e : TimeEntry) (rest : List TimeEntry) :
    tally m (e :: rest) =
      tally (mapSet m (lowerStr e.category)
        ((mapGet m (lowerStr e.category)).getD 0 + e.seconds)) rest := rfl

lemma tally_sum (l : List TimeEntry) : ∀ m : List (String × ℤ),
    ((tally m l).map Prod.snd).sum
      = (m.map Prod.snd).sum + (l.map (·.seconds)).sum := by
  induction l with
  | nil => intro m; simp [tally_nil]
  | cons e rest ih =>
    intro m
    rw [tally_cons, ih]
    rcases h : mapGet m (lowerStr e.category) with _ | w
    · rw [mapSet_sum_of_get_none _ _ _ h]
      simp only [Option.getD_none, List.map_cons, List.sum_cons]
      ring
    · rw [mapSet_sum_of_get_some _ _ _ _ h]
      simp only [Option.getD_some, List.map_cons, List.sum_cons]
      ring

lemma tally_get (l : List TimeEntry) : ∀ (m : List (String × ℤ)) (k : String),
    mapGet (tally m l) k =
      if (mapGet m k).isSome = true ∨ k ∈ l.map (fun e => (lowerStr e.category))
      then some ((mapGet m k).getD 0 + keyTotal l k)
      else none := by
  induction l with
  | nil =>
    intro m k
    rcases h : mapGet m k with _ | v <;> simp [tally_nil, h, keyTotal_nil]
  | cons e rest ih =>
    intro m k
    rw [tally_cons, ih]
    by_cases hk : (lowerStr e.category) = k
    · subst hk
      rw [mapGet_mapSet_self]
      simp only [Option.isSome_some, Option.getD_some, eq_self_iff_true, true_or,
        if_true]
      rw [if_pos (Or.inr (by simp))]
      rw [keyTotal_cons, if_pos rfl]
      congr 1
      ring
    · rw [mapGet_mapSet_ne _ _ _ _ (fun hh => hk hh.symm)]
      rw [keyTotal_cons, if_neg hk]
      have hmem : (k ∈ (e :: rest).map fun e => (lowerStr e.category)) ↔
          (k ∈ rest.map fun e => (lowerStr e.category)) := by
        simp only [List.map_cons, List.mem_cons]
        constructor
        · intro hc
          rcases hc with hc | hc
          · exact absurd hc.symm hk
          · exact hc
        · exact Or.inr
      by_cases hc : (mapGet m k).isSome = true ∨ k ∈ rest.map fun e => (lowerStr e.category)
      · have hc2 : (mapGet m k).isSome = true ∨
            k ∈ (e :: rest).map fun e => (lowerStr e.category) := by
          rcases hc with hc | hc
          · exact Or.inl hc
          · exact Or.inr (hmem.mpr hc)
        rw [if_pos hc, if_pos hc2]
        simp
      · have hc2 : ¬ ((mapGet m k).isSome = true ∨
            k ∈ (e :: rest).map fun e => (lowerStr e.category)) := by
          intro hc'
          rcases hc' with hc' | hc'
          · exact hc (Or.inl hc')
          · exact hc (Or.inr (hmem.mp hc'))
        rw [if_neg hc, if_neg hc2]

lemma tally_keys (l : List TimeEntry) : ∀ m : List (String × ℤ),
    (tally m l).map Prod.fst = l.foldl seenStep (m.map Prod.fst) := by
  induction l with
  | nil => intro m; simp [tally_nil]
  | cons e rest ih =>
    intro m
    rw [tally_cons, ih, List.foldl_cons]
    congr 1
    rw [mapSet_keys, seenStep]

lemma foldl_seenStep_nodup (l : List TimeEntry) : ∀ acc : List String,
    acc.Nodup → (l.foldl seenStep acc).Nodup := by
  induction l with
  | nil => intro acc h; simpa using h
  | cons e rest ih =>
    intro acc h
    rw [List.foldl_cons]
    apply ih
    rw [seenStep]
    by_cases hk : (lowerStr e.category) ∈ acc
    · simpa [hk] using h
    · rw [if_neg hk, List.nodup_append]
      refine ⟨h, List.nodup_singleton _, ?_⟩
      intro x hx hmem
      rw [List.mem_singleton] at hmem
      subst hmem
      exact hk hx

lemma tally_keys_nodup (l : List TimeEntry) :
    ((tally [] l).map Prod.fst).Nodup := by
  rw [tally_keys]
  exact foldl_seenStep_nodup l [] List.nodup_nil

lemma mapGet_of_mem_nodup (m : List (String × ℤ)) (k : String) (v : ℤ)
    (hnd : (m.map Prod.fst).Nodup) (hm : (k, v) ∈ m) : mapGet m k = some v := by
  induction m with
  | nil => simp at hm
  | cons p rest ih =>
    obtain ⟨k0, v0⟩ := p
    rcases List.mem_cons.mp hm with h | h
    · rw [Prod.mk.injEq] at h
      obtain ⟨rfl, rfl⟩ := h
      simp [mapGet_cons]
    · have hk0 : k0 ≠ k := by
        rintro rfl
        have hin : k0 ∈ rest.map Prod.fst := List.mem_map.mpr ⟨(k0, v), h, rfl⟩
        simp only [List.map_cons, List.nodup_cons] at hnd
        exact hnd.1 hin
      have hrest : (rest.map Prod.fst).Nodup := by
        simp only [List.map_cons, List.nodup_cons] at hnd
        exact hnd.2
      simp [mapGet_cons, hk0, ih hrest h]

lemma emit_nil (i : ℕ) : emit i [] = [] := rfl

lemma emit_cons (i : ℕ) (k : String) (v : ℤ) (rest : List (String × ℤ)) :
    emit i ((k, v) :: rest) =
      { name := k, seconds := v,
        color := colors.getD (i % colors.length) "" } :: emit (i + 1) rest := rfl

lemma emit_map_seconds (m : List (String × ℤ)) : ∀ i : ℕ,
    (emit i m).map (·.seconds) = m.map Prod.snd := by
  induction m with
  | nil => intro i; simp [emit_nil]
  | cons p rest ih =>
    intro i
    obtain ⟨k, v⟩ := p
    simp [emit_cons, ih]

lemma emit_map_name (m : List (String × ℤ)) : ∀ i : ℕ,
    (emit i m).map (·.name) = m.map Prod.fst := by
  induction m with
  | nil => intro i; simp [emit_nil]
  | cons p rest ih =>
    intro i
    obtain ⟨k, v⟩ := p
    simp [emit_cons, ih]

lemma mem_emit (m : List (String × ℤ)) : ∀ (i : ℕ) (a : AggregatedEntry),
    a ∈ emit i m → (a.name, a.seconds) ∈ m := by
  induction m with
  | nil => intro i a h; simp [emit_nil] at h
  | cons p rest ih =>
    intro i a h
    obtain ⟨k, v⟩ := p
    rw [emit_cons] at h
    rcases List.mem_cons.mp h with h | h
    · subst h; simp
    · exact List.mem_cons.mpr (Or.inr (ih (i + 1) a h))

lemma emit_length (m : List (String × ℤ)) : ∀ i : ℕ,
    (emit i m).length = m.length := by
  induction m with
  | nil => intro i; simp [emit_nil]
  | cons p rest ih =>
    intro i
    obtain ⟨k, v⟩ := p
    simp [emit_cons, ih]

lemma emit_get_color (m : List (String × ℤ)) : ∀ (i j : ℕ)
    (h : j < (emit i m).length),
    ((emit i m).get ⟨j, h⟩).color = colors.getD ((i + j) % colors.length) "" := by
  induction m with
  | nil => intro i j h; simp [emit_nil] at h
  | cons p rest ih =>
    intro i j h
    obtain ⟨k, v⟩ := p
    match j with
    | 0 => simp [emit_cons]
    | j + 1 =>
      have h' : j < (emit (i + 1) rest).length := by
        have := h
        rw [emit_cons, List.length_cons] at this
        rw [emit_length] at this ⊢
        omega
      have hcol := ih (i + 1) j h'
      have hstep : ((emit i ((k, v) :: rest)).get ⟨j + 1, h⟩)
          = (emit (i + 1) rest).get ⟨j, h'⟩ := by
        simp [emit_cons]
      rw [hstep, hcol]
      congr 2
      omega

lemma aggregate_names (l : List TimeEntry) :
    (aggregateEntries l).map (·.name) = firstSeenLower l := by
  rw [aggregateEntries, emit_map_name, tally_keys, firstSeenLower]
  rfl

/-- C1: for every input list, the sum of `seconds` over the records returned
by `aggregateEntries` equals the sum of `seconds` over the inputs, and each
output record's `seconds` is the sum of the `seconds` of exactly those input
entries whose lowercased category equals the record's `name`. -/
theorem claim1_aggregate_totals (l : List TimeEntry) :
    ((aggregateEntries l).map (·.seconds)).sum = (l.map (·.seconds)).sum ∧
    ∀ a ∈ aggregateEntries l, a.seconds = keyTotal l a.name := by
  constructor
  · rw [aggregateEntries, emit_map_seconds, tally_sum]
    simp
  · intro a ha
    have hmem : (a.name, a.seconds) ∈ tally [] l := mem_emit _ _ _ ha
    have hget : mapGet (tally [] l) a.name = some a.seconds :=
      mapGet_of_mem_nodup _ _ _ (tally_keys_nodup l) hmem
    rw [tally_get] at hget
    by_cases hc : (mapGet [] a.name).isSome = true ∨
        a.name ∈ l.map fun e => (lowerStr e.category)
    · rw [if_pos hc] at hget
      simp [mapGet_nil] at hget
      exact hget.symm
    · rw [if_neg hc] at hget
      exact absurd hget (by simp)

/-- Witness for C1 at the spec's two-entry scenario: the merged record is in
the output and its seconds are the bucket total of the lowercased name. -/
theorem claim1_aggregate_totals_witness :
    ((⟨"code", 5400, "#667eea"⟩ : AggregatedEntry) ∈ aggregateEntries sampleEntries) ∧
    (⟨"code", 5400, "#667eea"⟩ : AggregatedEntry).seconds = keyTotal sampleEntries "code" :=
  ⟨by decide, (claim1_aggregate_totals sampleEntries).2 _ (by decide)⟩

/-- C6: aggregation is case-insensitive and first-seen ordered, with palette
colors assigned by emission index modulo the palette size; the spec's
two-entry scenario yields exactly one merged record colored by the first
palette entry. -/
theorem claim6_case_insensitive_first_seen :
    aggregateEntries sampleEntries
      = [{ name := "code", seconds := 5400, color := colors.getD 0 "" }] ∧
    (∀ l : List TimeEntry, (aggregateEntries l).map (·.name) = firstSeenLower l) ∧
    (∀ l : List TimeEntry, ((aggregateEntries l).map (·.name)).Nodup) ∧
    (∀ (l : List TimeEntry) (j : ℕ) (h : j < (aggregateEntries l).length),
      ((aggregateEntries l).get ⟨j, h⟩).color = colors.getD (j % colors.length) "") := by
  refine ⟨by decide, aggregate_names, ?_, ?_⟩
  · intro l
    rw [aggregate_names, firstSeenLower]
    exact foldl_seenStep_nodup l [] List.nodup_nil
  · intro l j h
    have h' : j < (emit 0 (tally [] l)).length := h
    have hcol := emit_get_color (tally [] l) 0 j h'
    simpa using hcol

/-- Witness for C6: the color of the first record of the scenario's output is
the first palette entry. -/
theorem claim6_case_insensitive_first_seen_witness :
    (0 < (aggregateEntries sampleEntries).length) ∧
    ((aggregateEntries sampleEntries).get ⟨0, by decide⟩).color
      = colors.getD (0 % colors.length) "" :=
  ⟨by decide, claim6_case_insensitive_first_seen.2.2.2 sampleEntries 0 (by decide)⟩

/-- C9: `formatTime 3661` is `"01:01:01"`, and in general a non-negative
second count is rendered as three zero-padded colon-separated fields that
decompose the input as hours, minutes and seconds. -/
theorem claim9_formatTime :
    formatTime 3661 = "01:01:01" ∧
    ∀ s : ℤ, 0 ≤ s → ∃ a b c : ℤ,
      formatTime s = pad2 a ++ ":" ++ pad2 b ++ ":" ++ pad2 c ∧
      0 ≤ a ∧ 0 ≤ b ∧ b < 60 ∧ 0 ≤ c ∧ c < 60 ∧ a * 3600 + b * 60 + c = s := by
  constructor
  · decide
  · intro s hs
    obtain ⟨n, rfl⟩ := Int.eq_ofNat_of_zero_le hs
    have e3600 : (3600 : ℤ) = ((3600 : ℕ) : ℤ) := by norm_num
    have e60 : (60 : ℤ) = ((60 : ℕ) : ℤ) := by norm_num
    have h1 : Int.fdiv (↑n) 3600 = ((n / 3600 : ℕ) : ℤ) := by
      rw [e3600, ← Int.ofNat_fdiv]
    have h2 : Int.tmod (↑n) 3600 = ((n % 3600 : ℕ) : ℤ) := by
      rw [e3600, Int.tmod_eq_emod (by positivity) (by positivity)]
      omega
    have h3 : Int.fdiv ((n % 3600 : ℕ) : ℤ) 60 = ((n % 3600 / 60 : ℕ) : ℤ) := by
      rw [e60, ← Int.ofNat_fdiv]
    have h4 : Int.tmod (↑n) 60 = ((n % 60 : ℕ) : ℤ) := by
      rw [e60, Int.tmod_eq_emod (by positivity) (by positivity)]
      omega
    refine ⟨((n / 3600 : ℕ) : ℤ), ((n % 3600 / 60 : ℕ) : ℤ), ((n % 60 : ℕ) : ℤ),
      ?_, by omega, by omega, by omega, by omega, by omega, by omega⟩
    show pad2 (Int.fdiv (↑n) 3600) ++ ":" ++ pad2 (Int.fdiv (Int.tmod (↑n) 3600) 60)
        ++ ":" ++ pad2 (Int.tmod (↑n) 60) = _
    rw [h1, h2, h3, h4]

/-- C8: with an empty trimmed category, `startTimer` alerts and leaves the
state untouched; with a non-empty trimmed category it transitions to running,
records the start timestamp, resets the display, and starts the
once-per-second poll whose tick computes `floor((now - start) / 1000)`. -/
theorem claim8_startTimer (st : ClientState) (now : ℤ) :
    ((trimStr st.category) = "" →
      startTimer now st = (st, [Effect.alertMsg "Please enter a task name!"])) ∧
    ((trimStr st.category) ≠ "" →
      (startTimer now st).2 = [] ∧
      (startTimer now st).1.isRunning = true ∧
      (startTimer now st).1.startTime = some now ∧
      (startTimer now st).1.elapsedSeconds = 0 ∧
      (startTimer now st).1.poll = some { anchor := now, periodMs := 1000 } ∧
      ∀ t : ℤ, (intervalTick t (startTimer now st).1).elapsedSeconds
        = Int.fdiv (t - now) 1000) := by
  constructor
  · intro h
    rw [startTimer, if_pos h]
  · intro h
    rw [startTimer, if_neg h]
    exact ⟨rfl, rfl, rfl, rfl, rfl, fun t => rfl⟩

/-- Witness for C8: the empty-category branch at a concrete idle state, and
the running transition at a concrete ready state. -/
theorem claim8_startTimer_witness :
    ((trimStr idleState.category = "") ∧
      startTimer 5 idleState = (idleState, [Effect.alertMsg "Please enter a task name!"])) ∧
    ((trimStr readyState.category ≠ "") ∧
      (startTimer 5 readyState).1.isRunning = true) :=
  ⟨⟨by decide, (claim8_startTimer idleState 5).1 (by decide)⟩,
   ⟨by decide, ((claim8_startTimer readyState 5).2 (by decide)).2.1⟩⟩

/-- C7 counterexample: on an insert failure, `stopTimer` does not leave the
local UI state unchanged — the running flag (and the poll) had already been
cleared before the insert was attempted, and those changes persist. -/
theorem claim7_counterexample :
    (stopTimer true none "#667eea" runningState).1 ≠ runningState ∧
    (stopTimer true none "#667eea" runningState).1.isRunning = false ∧
    runningState.isRunning = true := by
  refine ⟨by decide, rfl, rfl⟩

/-- C7 amended: on a delete failure the state is exactly unchanged; on an
insert failure during `stopTimer` the only state changes are the
already-performed poll cancellation and `isRunning := false` — the entry
list, the aggregated list, the category text, the elapsed display and the
start timestamp keep their prior values, no refetch replaces the lists, and
in both cases the alert surfaces. -/
theorem claim7_storage_failure (fetched : Option (List TimeEntry)) (id : ℤ)
    (entryColor : String) (st : ClientState) :
    deleteEntry true fetched id st =
      (st, [Effect.deleteRow id, Effect.consoleError "Error deleting time entry:",
            Effect.alertMsg "Failed to delete time entry"]) ∧
    (stopTimer true fetched entryColor st).1
        = { st with isRunning := false, poll := none } ∧
    (stopTimer true fetched entryColor st).2
        = [Effect.insertRow (trimStr st.category) st.elapsedSeconds entryColor,
           Effect.consoleError "Error saving time entry:",
           Effect.alertMsg "Failed to save time entry"] ∧
    (stopTimer true fetched entryColor st).1.entries = st.entries ∧
    (stopTimer true fetched entryColor st).1.allEntries = st.allEntries ∧
    (stopTimer true fetched entryColor st).1.category = st.category ∧
    (stopTimer true fetched entryColor st).1.elapsedSeconds = st.elapsedSeconds ∧
    (stopTimer true fetched entryColor st).1.startTime = st.startTime :=
  ⟨rfl, rfl, rfl, rfl, rfl, rfl, rfl, rfl⟩

lemma buildSlices_nil (T c : ℝ) : buildSlices T c [] = [] := rfl

lemma buildSlices_cons (T c : ℝ) (e : AggregatedEntry) (rest : List AggregatedEntry) :
    buildSlices T c (e :: rest) =
      { startAngle := c, endAngle := c + (e.seconds : ℝ) / T * (2 * Real.pi),
        name := e.name, seconds := e.seconds,
        percentage := (e.seconds : ℝ) / T * 100 } ::
      buildSlices T (c + (e.seconds : ℝ) / T * (2 * Real.pi)) rest := rfl

lemma buildSlices_length (T : ℝ) : ∀ (l : List AggregatedEntry) (c : ℝ),
    (buildSlices T c l).length = l.length := by
  intro l
  induction l with
  | nil => intro c; rfl
  | cons e rest ih =>
    intro c
    rw [buildSlices_cons, List.length_cons, List.length_cons, ih]

lemma widthSum_nil (T : ℝ) : widthSum T [] = 0 := by simp [widthSum]

lemma widthSum_cons (T : ℝ) (e : AggregatedEntry) (l : List AggregatedEntry) :
    widthSum T (e :: l) = (e.seconds : ℝ) / T * (2 * Real.pi) + widthSum T l := by
  simp [widthSum]

lemma widthSum_append (T : ℝ) (l₁ l₂ : List AggregatedEntry) :
    widthSum T (l₁ ++ l₂) = widthSum T l₁ + widthSum T l₂ := by
  simp [widthSum]

lemma widthSum_take_succ (T : ℝ) (l : List AggregatedEntry) (i : ℕ)
    (h : i < l.length) :
    widthSum T (l.take (i + 1))
      = widthSum T (l.take i) + ((l.get ⟨i, h⟩).seconds : ℝ) / T * (2 * Real.pi) := by
  rw [List.take_succ, widthSum_append]
  congr 1
  rw [List.getElem?_eq_getElem h]
  simp [widthSum, List.get_eq_getElem]

lemma totalSeconds_eq_sum (l : List AggregatedEntry) :
    totalSeconds l = (l.map (·.seconds)).sum := by
  have aux : ∀ (l : List AggregatedEntry) (acc : ℤ),
      l.foldl (fun sum entry => sum + entry.seconds) acc
        = acc + (l.map (·.seconds)).sum := by
    intro l
    induction l with
    | nil => intro acc; simp
    | cons e rest ih =>
      intro acc
      rw [List.foldl_cons, ih, List.map_cons, List.sum_cons]
      ring
  rw [totalSeconds, aux]
  simp

lemma widthSum_eq (T : ℝ) (l : List AggregatedEntry) :
    widthSum T l = (((l.map (·.seconds)).sum : ℤ) : ℝ) / T * (2 * Real.pi) := by
  induction l with
  | nil => simp [widthSum_nil]
  | cons e rest ih =>
    rw [widthSum_cons, ih, List.map_cons, List.sum_cons]
    push_cast
    ring

lemma widthSum_full (l : List AggregatedEntry)
    (hT : ((totalSeconds l : ℤ) : ℝ) ≠ 0) :
    widthSum ((totalSeconds l : ℤ) : ℝ) l = 2 * Real.pi := by
  rw [widthSum_eq, ← totalSeconds_eq_sum, div_self hT, one_mul]

lemma buildSlices_get_start (T : ℝ) : ∀ (l : List AggregatedEntry) (c : ℝ) (i : ℕ)
    (h : i < (buildSlices T c l).length),
    ((buildSlices T c l).get ⟨i, h⟩).startAngle = c + widthSum T (l.take i) := by
  intro l
  induction l with
  | nil => intro c i h; rw [buildSlices_nil] at h; exact absurd h (by simp)
  | cons e rest ih =>
    intro c i h
    match i with
    | 0 => simp [buildSlices_cons, widthSum_nil]
    | i + 1 =>
      have h' : i < (buildSlices T (c + (e.seconds : ℝ) / T * (2 * Real.pi)) rest).length := by
        have := h
        rw [buildSlices_cons, List.length_cons] at this
        omega
      have hstep : ((buildSlices T c (e :: rest)).get ⟨i + 1, h⟩)
          = (buildSlices T (c + (e.seconds : ℝ) / T * (2 * Real.pi)) rest).get ⟨i, h'⟩ := by
        simp [buildSlices_cons]
      rw [hstep, ih, List.take_succ_cons, widthSum_cons]
      ring

lemma buildSlices_get_end (T : ℝ) : ∀ (l : List AggregatedEntry) (c : ℝ) (i : ℕ)
    (h : i < (buildSlices T c l).length),
    ((buildSlices T c l).get ⟨i, h⟩).endAngle = c + widthSum T (l.take (i + 1)) := by
  intro l
  induction l with
  | nil => intro c i h; rw [buildSlices_nil] at h; exact absurd h (by simp)
  | cons e rest ih =>
    intro c i h
    match i with
    | 0 =>
      simp [buildSlices_cons, List.take_succ_cons, widthSum_cons, widthSum_nil]
    | i + 1 =>
      have h' : i < (buildSlices T (c + (e.seconds : ℝ) / T * (2 * Real.pi)) rest).length := by
        have := h
        rw [buildSlices_cons, List.length_cons] at this
        omega
      have hstep : ((buildSlices T c (e :: rest)).get ⟨i + 1, h⟩)
          = (buildSlices T (c + (e.seconds : ℝ) / T * (2 * Real.pi)) rest).get ⟨i, h'⟩ := by
        simp [buildSlices_cons]
      rw [hstep, ih, List.take_succ_cons, widthSum_cons]
      ring

lemma renderPieChart_some (entries : List AggregatedEntry) (slices : List Slice)
    (h : renderPieChart entries = some slices) :
    entries.length ≠ 0 ∧
    slices = buildSlices ((totalSeconds entries : ℤ) : ℝ) (-(Real.pi / 2)) entries := by
  rw [renderPieChart] at h
  by_cases hz : entries.length = 0
  · rw [if_pos hz] at h
    exact absurd h (by simp)
  · rw [if_neg hz] at h
    exact ⟨hz, (Option.some_inj.mp h).symm⟩

/-- C3: the layout of a non-empty aggregation with positive total is
contiguous — the first slice starts at `-π/2`, each slice starts where the
previous one ended, each width is the seconds share of the full turn, and
the last slice ends exactly at `-π/2 + 2π`. -/
theorem claim3_layout (entries : List AggregatedEntry) (slices : List Slice)
    (h : renderPieChart entries = some slices) (hpos : 0 < totalSeconds entries) :
    slices.length = entries.length ∧
    (∀ h0 : 0 < slices.length, (slices.get ⟨0, h0⟩).startAngle = -(Real.pi / 2)) ∧
    (∀ (i : ℕ) (hi : i + 1 < slices.length),
      (slices.get ⟨i + 1, hi⟩).startAngle
        = (slices.get ⟨i, Nat.lt_of_succ_lt hi⟩).endAngle) ∧
    (∀ (i : ℕ) (hi : i < slices.length) (hie : i < entries.length),
      (slices.get ⟨i, hi⟩).endAngle - (slices.get ⟨i, hi⟩).startAngle
        = ((entries.get ⟨i, hie⟩).seconds : ℝ) / ((totalSeconds entries : ℤ) : ℝ)
            * (2 * Real.pi)) ∧
    (∀ hne : slices ≠ [], (slices.getLast hne).endAngle
        = -(Real.pi / 2) + 2 * Real.pi) := by
  obtain ⟨hz, hs⟩ := renderPieChart_some entries slices h
  subst hs
  have hT : ((totalSeconds entries : ℤ) : ℝ) ≠ 0 := by
    have : (0 : ℝ) < ((totalSeconds entries : ℤ) : ℝ) := by exact_mod_cast hpos
    linarith
  refine ⟨buildSlices_length _ _ _, ?_, ?_, ?_, ?_⟩
  · intro h0
    rw [buildSlices_get_start]
    simp [widthSum_nil]
  · intro i hi
    rw [buildSlices_get_start, buildSlices_get_end]
  · intro i hi hie
    rw [buildSlices_get_start, buildSlices_get_end, widthSum_take_succ _ _ _ hie]
    ring
  · intro hne
    have hlen : 0 < entries.length := Nat.pos_of_ne_zero hz
    have hlast : (buildSlices ((totalSeconds entries : ℤ) : ℝ) (-(Real.pi / 2))
        entries).length - 1 < (buildSlices ((totalSeconds entries : ℤ) : ℝ)
        (-(Real.pi / 2)) entries).length := by
      rw [buildSlices_length]
      omega
    rw [List.getLast_eq_get, buildSlices_get_end]
    have hidx : (buildSlices ((totalSeconds entries : ℤ) : ℝ) (-(Real.pi / 2))
        entries).length - 1 + 1 = entries.length := by
      rw [buildSlices_length]
      omega
    rw [hidx, List.take_length, widthSum_full _ hT]

/-- Witness for C3 at the two-entry aggregation: the hypotheses hold and the
layout has one slice per entry. -/
theorem claim3_layout_witness :
    renderPieChart entriesTwo
      = some (buildSlices ((totalSeconds entriesTwo : ℤ) : ℝ) (-(Real.pi / 2)) entriesTwo) ∧
    0 < totalSeconds entriesTwo ∧
    (buildSlices ((totalSeconds entriesTwo : ℤ) : ℝ) (-(Real.pi / 2)) entriesTwo).length
      = entriesTwo.length :=
  ⟨by rw [renderPieChart, if_neg (by decide)], by decide,
   (claim3_layout entriesTwo _ (by rw [renderPieChart, if_neg (by decide)])
     (by decide)).1⟩

/-- C4 (code bug): on a non-empty aggregation whose total is zero the
renderer does not take the "no data" placeholder path — the guard only tests
emptiness — and it builds one slice per entry, evaluating `seconds / total`
with `total = 0`. -/
theorem claim4_zero_total_not_placeholder :
    totalSeconds zeroEntries = 0 ∧
    renderPieChart zeroEntries ≠ none ∧
    ∃ slices, renderPieChart zeroEntries = some slices ∧ slices.length = 1 := by
  have h : renderPieChart zeroEntries
      = some (buildSlices ((totalSeconds zeroEntries : ℤ) : ℝ) (-(Real.pi / 2))
          zeroEntries) := by
    rw [renderPieChart, if_neg (by decide)]
  refine ⟨by decide, by rw [h]; simp, _, h, ?_⟩
  rw [buildSlices_length]
  rfl

lemma arctan_nonpos_of_nonpos {x : ℝ} (h : x ≤ 0) : Real.arctan x ≤ 0 := by
  have := Real.arctan_strictMono.monotone h
  rwa [Real.arctan_zero] at this

lemma arctan_pos_of_pos {x : ℝ} (h : 0 < x) : 0 < Real.arctan x := by
  have := Real.arctan_strictMono h
  rwa [Real.arctan_zero] at this

lemma atan2_mem (y x : ℝ) : -Real.pi < atan2 y x ∧ atan2 y x ≤ Real.pi := by
  have hπ := Real.pi_pos
  rw [atan2]
  by_cases hx : 0 < x
  · rw [if_pos hx]
    have h1 := Real.arctan_lt_pi_div_two (y / x)
    have h2 := Real.neg_pi_div_two_lt_arctan (y / x)
    constructor <;> linarith
  · rw [if_neg hx]
    by_cases hx' : x < 0
    · rw [if_pos hx']
      by_cases hy : 0 ≤ y
      · rw [if_pos hy]
        have h1 : Real.arctan (y / x) ≤ 0 :=
          arctan_nonpos_of_nonpos (div_nonpos_of_nonneg_of_nonpos hy (le_of_lt hx'))
        have h2 := Real.neg_pi_div_two_lt_arctan (y / x)
        constructor <;> linarith
      · rw [if_neg hy]
        push_neg at hy
        have h1 : 0 < Real.arctan (y / x) :=
          arctan_pos_of_pos (div_pos_of_neg_of_neg hy hx')
        have h2 := Real.arctan_lt_pi_div_two (y / x)
        constructor <;> linarith
    · rw [if_neg hx']
      by_cases hy : 0 < y
      · rw [if_pos hy]
        constructor <;> linarith
      · rw [if_neg hy]
        by_cases hy' : y < 0
        · rw [if_pos hy']
          constructor <;> linarith
        · rw [if_neg hy']
          constructor <;> linarith

lemma hitAngle_mem (cw ch rl rt x y : ℝ) :
    0 ≤ hitAngle cw ch rl rt x y ∧ hitAngle cw ch rl rt x y < 2 * Real.pi := by
  have h := atan2_mem (y - rt - ch / 2) (x - rl - cw / 2)
  have hπ := Real.pi_pos
  rw [hitAngle]
  by_cases hneg : atan2 (y - rt - ch / 2) (x - rl - cw / 2) + Real.pi / 2 < 0
  · rw [if_pos hneg]
    constructor <;> linarith [h.1, h.2]
  · rw [if_neg hneg]
    push_neg at hneg
    exact ⟨hneg, by linarith [h.2]⟩

lemma sliceMatches_of_span (s : Slice) (c w θ a : ℝ)
    (hw0 : 0 ≤ w) (hw2 : w < 2 * Real.pi)
    (hs : s.startAngle = c) (he : s.endAngle = c + w)
    (hθa : 0 ≤ θ → a = θ) (hθa' : θ < 0 → a = θ + 2 * Real.pi)
    (hlo : c ≤ θ) (hhi : θ ≤ c + w) :
    sliceMatches a s = true := by
  have hπ := Real.pi_pos
  rw [sliceMatches, hs, he, normAngle, normAngle]
  by_cases hc : c < 0
  · by_cases hd : c + w < 0
    · rw [if_pos hc, if_pos hd, if_neg (by linarith)]
      have hθneg : θ < 0 := lt_of_le_of_lt hhi hd
      have ha : a = θ + 2 * Real.pi := hθa' hθneg
      simp only [Bool.and_eq_true, decide_eq_true_eq]
      rw [ha]
      constructor <;> linarith
    · rw [if_pos hc, if_neg hd, if_pos (by linarith)]
      simp only [Bool.or_eq_true, decide_eq_true_eq]
      by_cases hθ : 0 ≤ θ
      · right
        rw [hθa hθ]
        exact hhi
      · left
        push_neg at hθ
        rw [hθa' hθ]
        linarith
  · push_neg at hc
    rw [if_neg (not_lt.mpr hc), if_neg (by linarith : ¬ (c + w < 0)),
      if_neg (by linarith : ¬ (c + w < c))]
    have hθ : 0 ≤ θ := le_trans hc hlo
    simp only [Bool.and_eq_true, decide_eq_true_eq]
    rw [hθa hθ]
    exact ⟨hlo, hhi⟩

lemma buildSlices_cover (T : ℝ) (hT : 0 < T) (a : ℝ) :
    ∀ (l : List AggregatedEntry) (c θ : ℝ), l ≠ [] →
      (∀ e ∈ l, 0 ≤ e.seconds) → (∀ e ∈ l, ((e.seconds : ℝ)) < T) →
      (0 ≤ θ → a = θ) → (θ < 0 → a = θ + 2 * Real.pi) →
      c ≤ θ → θ ≤ c + widthSum T l →
      ∃ s ∈ buildSlices T c l, sliceMatches a s = true := by
  intro l
  induction l with
  | nil => intro c θ hne; exact absurd rfl hne
  | cons e rest ih =>
    intro c θ _ hnn hlt hθa hθa' hlo hhi
    have hw0 : 0 ≤ (e.seconds : ℝ) / T * (2 * Real.pi) := by
      apply mul_nonneg
      · apply div_nonneg _ (le_of_lt hT)
        exact_mod_cast hnn e (by simp)
      · positivity
    have hw2 : (e.seconds : ℝ) / T * (2 * Real.pi) < 2 * Real.pi := by
      have h1 : (e.seconds : ℝ) / T < 1 := (div_lt_one hT).mpr (hlt e (by simp))
      nlinarith [Real.pi_pos]
    by_cases hcase : θ ≤ c + (e.seconds : ℝ) / T * (2 * Real.pi)
    · refine ⟨⟨c, c + (e.seconds : ℝ) / T * (2 * Real.pi), e.name, e.seconds,
        (e.seconds : ℝ) / T * 100⟩, ?_, ?_⟩
      · rw [buildSlices_cons]
        exact List.mem_cons_self _ _
      · exact sliceMatches_of_span _ c _ θ a hw0 hw2 rfl rfl hθa hθa' hlo hcase
    · push_neg at hcase
      cases rest with
      | nil =>
        exfalso
        rw [widthSum_cons, widthSum_nil] at hhi
        linarith
      | cons e2 rest2 =>
        obtain ⟨s, hmem, hmatch⟩ := ih (c + (e.seconds : ℝ) / T * (2 * Real.pi)) θ
          (by simp)
          (fun x hx => hnn x (List.mem_cons_of_mem _ hx))
          (fun x hx => hlt x (List.mem_cons_of_mem _ hx))
          hθa hθa' (le_of_lt hcase)
          (by rw [widthSum_cons] at hhi; linarith)
        refine ⟨s, ?_, hmatch⟩
        rw [buildSlices_cons]
        exact List.mem_cons_of_mem _ hmem

/-- C2 amended: for layouts in which no single slice spans the whole turn
(every record's seconds are strictly below the total), the hit tester returns
`none` for pointers strictly outside the radius and returns exactly one slice
— the first whose normalized angular test matches — for pointers strictly
inside. -/
theorem claim2_hit_inside_outside (entries : List AggregatedEntry)
    (slices : List Slice)
    (h : renderPieChart entries = some slices)
    (hpos : 0 < totalSeconds entries)
    (hnn : ∀ e ∈ entries, 0 ≤ e.seconds)
    (hlt : ∀ e ∈ entries, e.seconds < totalSeconds entries)
    (cw ch rl rt x y : ℝ) :
    (pieRadius cw ch < hitDistance cw ch rl rt x y →
      getSliceAtPosition cw ch rl rt slices x y = none) ∧
    (hitDistance cw ch rl rt x y < pieRadius cw ch →
      ∃ s, getSliceAtPosition cw ch rl rt slices x y = some s ∧
        sliceMatches (hitAngle cw ch rl rt x y) s = true) := by
  obtain ⟨hz, hs⟩ := renderPieChart_some entries slices h
  have hπ := Real.pi_pos
  constructor
  · intro hfar
    rw [getSliceAtPosition]
    by_cases he : slices.length = 0
    · rw [if_pos he]
    · rw [if_neg he, if_pos hfar]
  · intro hnear
    have hlen : slices.length ≠ 0 := by
      rw [hs, buildSlices_length]
      exact hz
    rw [getSliceAtPosition, if_neg hlen, if_neg (not_lt.mpr (le_of_lt hnear))]
    have hT : (0 : ℝ) < ((totalSeconds entries : ℤ) : ℝ) := by exact_mod_cast hpos
    have ha := hitAngle_mem cw ch rl rt x y
    have hne : entries ≠ [] := by
      intro hE
      rw [hE] at hz
      exact hz rfl
    have hltR : ∀ e ∈ entries, (e.seconds : ℝ) < ((totalSeconds entries : ℤ) : ℝ) :=
      fun e heM => by exact_mod_cast hlt e heM
    set a := hitAngle cw ch rl rt x y with hadef
    by_cases hcase : a ≤ 3 * (Real.pi / 2)
    · obtain ⟨s, hmem, hmatch⟩ := buildSlices_cover ((totalSeconds entries : ℤ) : ℝ)
        hT a entries (-(Real.pi / 2)) a hne hnn hltR
        (fun _ => rfl) (fun hlt0 => absurd ha.1 (not_le.mpr hlt0))
        (by linarith [ha.1])
        (by rw [widthSum_full _ (ne_of_gt hT)]; linarith)
      rw [hs]
      have hfound : ((buildSlices ((totalSeconds entries : ℤ) : ℝ) (-(Real.pi / 2))
          entries).find? (sliceMatches a)).isSome :=
        List.find?_isSome.mpr ⟨s, hmem, hmatch⟩
      obtain ⟨s', hfind⟩ := Option.isSome_iff_exists.mp hfound
      exact ⟨s', hfind, List.find?_some hfind⟩
    · push_neg at hcase
      obtain ⟨s, hmem, hmatch⟩ := buildSlices_cover ((totalSeconds entries : ℤ) : ℝ)
        hT a entries (-(Real.pi / 2)) (a - 2 * Real.pi) hne hnn hltR
        (fun h0 => by linarith [ha.2]) (fun _ => by ring)
        (by linarith)
        (by rw [widthSum_full _ (ne_of_gt hT)]; linarith [ha.2])
      rw [hs]
      have hfound : ((buildSlices ((totalSeconds entries : ℤ) : ℝ) (-(Real.pi / 2))
          entries).find? (sliceMatches a)).isSome :=
        List.find?_isSome.mpr ⟨s, hmem, hmatch⟩
      obtain ⟨s', hfind⟩ := Option.isSome_iff_exists.mp hfound
      exact ⟨s', hfind, List.find?_some hfind⟩

lemma sliceMatches_eval (a s1 e1 : ℝ) (nm : String) (sec : ℤ) (pc : ℝ) :
    sliceMatches a ⟨s1, e1, nm, sec, pc⟩
      = (if normAngle e1 < normAngle s1
         then decide (normAngle s1 ≤ a) || decide (a ≤ normAngle e1)
         else decide (normAngle s1 ≤ a) && decide (a ≤ normAngle e1)) := rfl

lemma sliceMatchesAlt_eval (a s1 e1 : ℝ) (nm : String) (sec : ℤ) (pc : ℝ) :
    sliceMatchesAlt a ⟨s1, e1, nm, sec, pc⟩
      = (if normAngle e1 < normAngle s1
         then decide (normAngle s1 ≤ a)
         else decide (normAngle s1 ≤ a) && decide (a ≤ normAngle e1)) := rfl

lemma atan2_zero_of_pos (x : ℝ) (hx : 0 < x) : atan2 0 x = 0 := by
  rw [atan2, if_pos hx, zero_div, Real.arctan_zero]

lemma pieRadius_500 : pieRadius 500 500 = 230 := by
  rw [pieRadius]
  norm_num

lemma hitDistance_400 : hitDistance 500 500 0 0 400 250 = 150 := by
  show Real.sqrt ((400 - 0 - 500 / 2) * (400 - 0 - 500 / 2)
    + (250 - 0 - 500 / 2) * (250 - 0 - 500 / 2)) = 150
  rw [show ((400 - 0 - 500 / 2 : ℝ) * (400 - 0 - 500 / 2)
    + (250 - 0 - 500 / 2) * (250 - 0 - 500 / 2)) = 150 ^ 2 from by norm_num]
  exact Real.sqrt_sq (by norm_num)

lemma hitDistance_480 : hitDistance 500 500 0 0 480 250 = 230 := by
  show Real.sqrt ((480 - 0 - 500 / 2) * (480 - 0 - 500 / 2)
    + (250 - 0 - 500 / 2) * (250 - 0 - 500 / 2)) = 230
  rw [show ((480 - 0 - 500 / 2 : ℝ) * (480 - 0 - 500 / 2)
    + (250 - 0 - 500 / 2) * (250 - 0 - 500 / 2)) = 230 ^ 2 from by norm_num]
  exact Real.sqrt_sq (by norm_num)

lemma hitAngle_400 : hitAngle 500 500 0 0 400 250 = Real.pi / 2 := by
  show (if atan2 (250 - 0 - 500 / 2) (400 - 0 - 500 / 2) + Real.pi / 2 < 0
    then atan2 (250 - 0 - 500 / 2) (400 - 0 - 500 / 2) + Real.pi / 2 + 2 * Real.pi
    else atan2 (250 - 0 - 500 / 2) (400 - 0 - 500 / 2) + Real.pi / 2) = Real.pi / 2
  rw [show (250 - 0 - 500 / 2 : ℝ) = 0 from by norm_num,
    show (400 - 0 - 500 / 2 : ℝ) = 150 from by norm_num,
    atan2_zero_of_pos 150 (by norm_num)]
  rw [if_neg (by linarith [Real.pi_pos] : ¬ ((0 : ℝ) + Real.pi / 2 < 0))]
  rw [zero_add]

lemma hitAngle_480 : hitAngle 500 500 0 0 480 250 = Real.pi / 2 := by
  show (if atan2 (250 - 0 - 500 / 2) (480 - 0 - 500 / 2) + Real.pi / 2 < 0
    then atan2 (250 - 0 - 500 / 2) (480 - 0 - 500 / 2) + Real.pi / 2 + 2 * Real.pi
    else atan2 (250 - 0 - 500 / 2) (480 - 0 - 500 / 2) + Real.pi / 2) = Real.pi / 2
  rw [show (250 - 0 - 500 / 2 : ℝ) = 0 from by norm_num,
    show (480 - 0 - 500 / 2 : ℝ) = 230 from by norm_num,
    atan2_zero_of_pos 230 (by norm_num)]
  rw [if_neg (by linarith [Real.pi_pos] : ¬ ((0 : ℝ) + Real.pi / 2 < 0))]
  rw [zero_add]

lemma buildSlices_entriesOne :
    buildSlices ((totalSeconds entriesOne : ℤ) : ℝ) (-(Real.pi / 2)) entriesOne
      = [⟨-(Real.pi / 2), -(Real.pi / 2) + 2 * Real.pi, "work", 3600, 100⟩] := by
  rw [show totalSeconds entriesOne = (3600 : ℤ) from by decide]
  rw [entriesOne, buildSlices_cons, buildSlices_nil]
  norm_num [Slice.mk.injEq]

lemma normAngle_of_nonneg {θ : ℝ} (h : 0 ≤ θ) : normAngle θ = θ := by
  rw [normAngle, if_neg (not_lt.mpr h)]

lemma buildSlices_entriesTwo :
    buildSlices ((totalSeconds entriesTwo : ℤ) : ℝ) (-(Real.pi / 2)) entriesTwo
      = [⟨-(Real.pi / 2), -(Real.pi / 2) + Real.pi, "a", 1, 50⟩,
         ⟨-(Real.pi / 2) + Real.pi, -(Real.pi / 2) + Real.pi + Real.pi, "b", 1, 50⟩] := by
  rw [show totalSeconds entriesTwo = (2 : ℤ) from by decide]
  rw [entriesTwo, buildSlices_cons, buildSlices_cons, buildSlices_nil]
  norm_num [Slice.mk.injEq]
  constructor <;> ring

/-- C2 counterexample: with a single category holding all the seconds, the
lone slice spans the full turn and its per-slice normalization degenerates
(normalized start and end coincide at `3π/2`), so a pointer strictly inside
the radius is matched by no slice and the hit tester returns `none`. -/
theorem claim2_counterexample :
    0 < totalSeconds entriesOne ∧
    hitDistance 500 500 0 0 400 250 < pieRadius 500 500 ∧
    ∃ slices, renderPieChart entriesOne = some slices ∧
      getSliceAtPosition 500 500 0 0 slices 400 250 = none := by
  refine ⟨by decide, by rw [hitDistance_400, pieRadius_500]; norm_num,
    buildSlices ((totalSeconds entriesOne : ℤ) : ℝ) (-(Real.pi / 2)) entriesOne,
    by rw [renderPieChart, if_neg (by decide)], ?_⟩
  have hfalse : ¬ (sliceMatches (Real.pi / 2)
      (⟨-(Real.pi / 2), -(Real.pi / 2) + 2 * Real.pi, "work", 3600, 100⟩ : Slice)
        = true) := by
    rw [sliceMatches_eval]
    rw [show normAngle (-(Real.pi / 2)) = -(Real.pi / 2) + 2 * Real.pi from by
      rw [normAngle, if_pos (by linarith [Real.pi_pos])]]
    rw [normAngle_of_nonneg (by linarith [Real.pi_pos])]
    rw [if_neg (lt_irrefl _)]
    rw [decide_eq_false (not_le.mpr
      (by linarith [Real.pi_pos] : Real.pi / 2 < -(Real.pi / 2) + 2 * Real.pi))]
    simp
  rw [buildSlices_entriesOne, getSliceAtPosition, hitDistance_400, pieRadius_500,
    hitAngle_400]
  split_ifs
  · rfl
  · rfl
  · rw [List.find?_cons_of_neg _ hfalse]
    rfl

/-- Witness for the amended C2 at the two-category layout: the hypotheses
hold, the pointer at `(400, 250)` is strictly inside the radius, and the hit
tester returns a matching slice. -/
theorem claim2_hit_witness :
    renderPieChart entriesTwo
      = some (buildSlices ((totalSeconds entriesTwo : ℤ) : ℝ) (-(Real.pi / 2)) entriesTwo) ∧
    0 < totalSeconds entriesTwo ∧
    ∃ s, getSliceAtPosition 500 500 0 0
        (buildSlices ((totalSeconds entriesTwo : ℤ) : ℝ) (-(Real.pi / 2)) entriesTwo)
        400 250 = some s ∧
      sliceMatches (hitAngle 500 500 0 0 400 250) s = true := by
  have hrender : renderPieChart entriesTwo
      = some (buildSlices ((totalSeconds entriesTwo : ℤ) : ℝ) (-(Real.pi / 2)) entriesTwo) := by
    rw [renderPieChart, if_neg (by decide)]
  exact ⟨hrender, by decide,
    (claim2_hit_inside_outside entriesTwo _ hrender (by decide) (by decide)
      (by decide) 500 500 0 0 400 250).2
      (by rw [hitDistance_400, pieRadius_500]; norm_num)⟩

/-- C10: the hit tester returns `none` on an empty slice list; a pointer
whose distance equals the radius is not rejected by the outside guard (the
guard requires strictly greater), so the angular scan still runs and a slice
can be returned for a point on the rim, as the concrete rim point `(480, 250)`
shows on the two-category layout. -/
theorem claim10_rim_inside (cw ch rl rt x y : ℝ) :
    getSliceAtPosition cw ch rl rt [] x y = none ∧
    (∀ slices : List Slice,
      hitDistance cw ch rl rt x y = pieRadius cw ch →
      getSliceAtPosition cw ch rl rt slices x y
        = if slices.length = 0 then none
          else slices.find? (sliceMatches (hitAngle cw ch rl rt x y))) ∧
    ∃ s, getSliceAtPosition 500 500 0 0
        (buildSlices ((totalSeconds entriesTwo : ℤ) : ℝ) (-(Real.pi / 2)) entriesTwo)
        480 250 = some s := by
  refine ⟨by simp [getSliceAtPosition], ?_, ?_⟩
  · intro slices heq
    rw [getSliceAtPosition]
    by_cases hz : slices.length = 0
    · rw [if_pos hz, if_pos hz]
    · rw [if_neg hz, if_neg hz, if_neg (by rw [heq]; exact lt_irrefl _)]
  · rw [buildSlices_entriesTwo, getSliceAtPosition, hitDistance_480, pieRadius_500,
      hitAngle_480]
    split_ifs with h1 h2
    · simp at h1
    · exact absurd h2 (lt_irrefl _)
    refine ⟨_, List.find?_cons_of_pos _ ?_⟩
    rw [sliceMatches_eval]
    rw [show normAngle (-(Real.pi / 2)) = -(Real.pi / 2) + 2 * Real.pi from by
      rw [normAngle, if_pos (by linarith [Real.pi_pos])]]
    rw [normAngle_of_nonneg (by linarith [Real.pi_pos] : (0:ℝ) ≤ -(Real.pi / 2) + Real.pi)]
    rw [if_pos (by linarith [Real.pi_pos])]
    rw [decide_eq_false (not_le.mpr
      (by linarith [Real.pi_pos] : Real.pi / 2 < -(Real.pi / 2) + 2 * Real.pi))]
    rw [decide_eq_true (by linarith : Real.pi / 2 ≤ -(Real.pi / 2) + Real.pi)]
    rfl

/-- Witness for C10 at the rim point `(480, 250)` of a 500×500 canvas: the
distance equals the radius and the guard falls through to the angular scan. -/
theorem claim10_rim_inside_witness :
    hitDistance 500 500 0 0 480 250 = pieRadius 500 500 ∧
    getSliceAtPosition 500 500 0 0
        (buildSlices ((totalSeconds entriesTwo : ℤ) : ℝ) (-(Real.pi / 2)) entriesTwo)
        480 250
      = if (buildSlices ((totalSeconds entriesTwo : ℤ) : ℝ) (-(Real.pi / 2))
            entriesTwo).length = 0
        then none
        else (buildSlices ((totalSeconds entriesTwo : ℤ) : ℝ) (-(Real.pi / 2))
            entriesTwo).find? (sliceMatches (hitAngle 500 500 0 0 480 250)) := by
  have hrim : hitDistance 500 500 0 0 480 250 = pieRadius 500 500 := by
    rw [hitDistance_480, pieRadius_500]
  exact ⟨hrim, (claim10_rim_inside 500 500 0 0 480 250).2.1 _ hrim⟩

lemma wrapSlice_wraps : normAngle wrapSlice.endAngle < normAngle wrapSlice.startAngle := by
  show normAngle (1 / 2) < normAngle (-(1 / 2))
  rw [normAngle_of_nonneg (by norm_num)]
  rw [normAngle, if_pos (by norm_num : (-(1 / 2) : ℝ) < 0)]
  linarith [Real.pi_gt_three]

/-- C5 (code bug in the draft variant): in the main client the wrap branch
accepts exactly the angles with `angle ≥ start` or `angle ≤ end` after
per-slice normalization, as the claim states; in the draft variant
`src/unnamed/part_001` the branch reads `angle >= start ?? angle <= end`,
whose nullish-coalescing operator discards the second disjunct, so the
boundary-crossing slice rejects the angle `1/4` that the claim requires it
to accept. -/
theorem claim5_wrap_test :
    (∀ (a : ℝ) (s : Slice), normAngle s.endAngle < normAngle s.startAngle →
      (sliceMatches a s = true ↔
        (normAngle s.startAngle ≤ a ∨ a ≤ normAngle s.endAngle))) ∧
    normAngle wrapSlice.endAngle < normAngle wrapSlice.startAngle ∧
    ¬ (normAngle wrapSlice.startAngle ≤ (1 / 4 : ℝ)) ∧
    ((1 / 4 : ℝ) ≤ normAngle wrapSlice.endAngle) ∧
    sliceMatches (1 / 4) wrapSlice = true ∧
    sliceMatchesAlt (1 / 4) wrapSlice = false := by
  have hs' : normAngle (-(1 / 2) : ℝ) = -(1 / 2) + 2 * Real.pi := by
    rw [normAngle, if_pos (by norm_num : (-(1 / 2) : ℝ) < 0)]
  have he' : normAngle ((1 : ℝ) / 2) = 1 / 2 := normAngle_of_nonneg (by norm_num)
  refine ⟨?_, wrapSlice_wraps, ?_, ?_, ?_, ?_⟩
  · intro a s h
    obtain ⟨s1, e1, nm, sec, pc⟩ := s
    rw [sliceMatches_eval, if_pos h]
    simp [Bool.or_eq_true, decide_eq_true_eq]
  · show ¬ (normAngle (-(1 / 2) : ℝ) ≤ (1 / 4 : ℝ))
    rw [hs']
    exact not_le.mpr (by linarith [Real.pi_gt_three])
  · show (1 / 4 : ℝ) ≤ normAngle ((1 : ℝ) / 2)
    rw [he']
    norm_num
  · rw [show wrapSlice = (⟨-(1 / 2), 1 / 2, "w", 0, 0⟩ : Slice) from rfl,
      sliceMatches_eval, he', hs', if_pos (by linarith [Real.pi_gt_three])]
    rw [decide_eq_false (not_le.mpr (by linarith [Real.pi_gt_three] :
      (1 / 4 : ℝ) < -(1 / 2) + 2 * Real.pi))]
    rw [decide_eq_true (by norm_num : (1 / 4 : ℝ) ≤ 1 / 2)]
    rfl
  · rw [show wrapSlice = (⟨-(1 / 2), 1 / 2, "w", 0, 0⟩ : Slice) from rfl,
      sliceMatchesAlt_eval, he', hs', if_pos (by linarith [Real.pi_gt_three])]
    rw [decide_eq_false (not_le.mpr (by linarith [Real.pi_gt_three] :
      (1 / 4 : ℝ) < -(1 / 2) + 2 * Real.pi))]

/-- Witness for C5 at the wrapping slice and the angle `1/4`. -/
theorem claim5_wrap_test_witness :
    normAngle wrapSlice.endAngle < normAngle wrapSlice.startAngle ∧
    (sliceMatches (1 / 4) wrapSlice = true ↔
      (normAngle wrapSlice.startAngle ≤ (1 / 4 : ℝ) ∨
        (1 / 4 : ℝ) ≤ normAngle wrapSlice.endAngle)) :=
  ⟨wrapSlice_wraps, claim5_wrap_test.1 (1 / 4) wrapSlice wrapSlice_wraps⟩

/-- Witness for C9 at the scenario input `3661`. -/
theorem claim9_formatTime_witness :
    (0 : ℤ) ≤ 3661 ∧
    ∃ a b c : ℤ, formatTime 3661 = pad2 a ++ ":" ++ pad2 b ++ ":" ++ pad2 c ∧
      0 ≤ a ∧ 0 ≤ b ∧ b < 60 ∧ 0 ≤ c ∧ c < 60 ∧ a * 3600 + b * 60 + c = 3661 :=
  ⟨by norm_num, claim9_formatTime.2 3661 (by norm_num)⟩

end TimeTracker
